import Mathlib

set_option exponentiation.threshold 1100

/-!
Shallow embedding of the visualization transform of `ai-sql-copilot`
(`src/frontend/app/page.tsx`): the field resolver (`pickXKey`, the
`actualYKey` fuzzy match), the series builder inside `ChartOrTable` and
`FullscreenChart`, the table renderer, and the two `TopList` ranking
summaries.  JavaScript numbers are modelled as exact decimal fractions
extended with `NaN`, `Infinity` and `-Infinity`; rows are ordered
association lists from column names to scalar values, mirroring JS
object key order.
-/

/-- Strip factors of ten from `m`, decreasing the exponent budget `e`;
used to keep decimal fractions in canonical form. -/
def canonAux : ℤ → ℕ → ℤ × ℕ
  | m, 0 => (m, 0)
  | m, e + 1 => if m % 10 = 0 then canonAux (m / 10) e else (m, e + 1)

/-- An exact decimal fraction `m / 10^e`.  Every finite number the
transform manipulates is decimal (numeric row values, `Number()` parses
of decimal literals, and their sums), so this represents them exactly;
it stands in for an IEEE double. -/
structure Dec where
  m : ℤ
  e : ℕ
deriving DecidableEq, Repr

/-- Build a decimal fraction in canonical form (trailing zeros of the
fractional part removed, so structural equality is value equality). -/
def Dec.mk' (m : ℤ) (e : ℕ) : Dec :=
  let p := canonAux m e
  ⟨p.1, p.2⟩

/-- The decimal fraction denoting the integer `n`. -/
def Dec.ofInt (n : ℤ) : Dec := ⟨n, 0⟩

/-- Exact addition of decimal fractions. -/
def Dec.add (a b : Dec) : Dec :=
  Dec.mk' (a.m * (10 : ℤ) ^ b.e + b.m * (10 : ℤ) ^ a.e) (a.e + b.e)

/-- Negation of a decimal fraction (canonical form is preserved). -/
def Dec.neg (a : Dec) : Dec := ⟨-a.m, a.e⟩

/-- A JavaScript number: an exact decimal fraction, or one of the
special values `NaN`, `Infinity`, `-Infinity`. -/
inductive JSNum where
  | finite (d : Dec)
  | nan
  | inf
  | ninf
deriving DecidableEq, Repr

/-- The JS number denoting the integer `n`. -/
def JSNum.int (n : ℤ) : JSNum := .finite (Dec.ofInt n)

/-- A JavaScript scalar value as it occurs in a result row or a built
series point: a string, a number, or `null`.  Absent keys are modelled
by `Option.none` at the lookup site (JS `undefined`). -/
inductive Scalar where
  | str (s : String)
  | num (n : JSNum)
  | null
deriving DecidableEq, Repr

/-- A JavaScript object with ordered keys, as used for result rows and
series points: an association list from key to scalar, keys unique. -/
abbrev Obj := List (String × Scalar)

/-- JS property read `o[k]`: the value at the first matching key, or
`none` for `undefined`. -/
def getV (o : Obj) (k : String) : Option Scalar :=
  (o.find? (fun kv => kv.1 == k)).map (fun kv => kv.2)

/-- JS property write `o[k] = v`: update in place if the key exists
(keeping its position, as JS objects do), else append the key. -/
def setV (o : Obj) (k : String) (v : Scalar) : Obj :=
  if (getV o k).isSome then
    o.map (fun kv => if kv.1 == k then (k, v) else kv)
  else
    o ++ [(k, v)]

/-- JS `Object.keys(o)` in insertion order. -/
def keysOf (o : Obj) : List String :=
  o.map (fun kv => kv.1)

/-- Whether `pat` is an initial segment of the second list. -/
def startsWithL : List Char → List Char → Bool
  | [], _ => true
  | _ :: _, [] => false
  | p :: ps, c :: cs => p == c && startsWithL ps cs

/-- Whether `pat` occurs contiguously inside the second list. -/
def containsSubL (pat : List Char) : List Char → Bool
  | [] => startsWithL pat []
  | c :: cs => startsWithL pat (c :: cs) || containsSubL pat cs

/-- JS `s.includes(pat)`. -/
def strIncludes (s pat : String) : Bool :=
  containsSubL pat.toList s.toList

/-- JS `s.replace(/_/g, '')`. -/
def stripUnderscores (s : String) : String :=
  String.mk (s.toList.filter (fun c => c ≠ '_'))

/-- ASCII lower-casing of one character. -/
def lowerChar (c : Char) : Char :=
  if 'A' ≤ c ∧ c ≤ 'Z' then Char.ofNat (c.toNat + 32) else c

/-- JS `s.toLowerCase()` on the ASCII data at hand. -/
def strToLower (s : String) : String :=
  String.mk (s.toList.map lowerChar)

/-- Natural number denoted by a digit list (most significant first). -/
def digitsToNat (cs : List Char) : ℕ :=
  cs.foldl (fun a c => a * 10 + (c.toNat - 48)) 0

/-- Mantissa of a decimal literal (`123`, `123.45`, `.5`, `123.`),
as an exact decimal fraction. -/
def parseMantissa (cs : List Char) : Option Dec :=
  match cs.splitOn '.' with
  | [ip] =>
      if ip ≠ [] && ip.all Char.isDigit then
        some (Dec.ofInt (digitsToNat ip)) else none
  | [ip, fp] =>
      if (ip ≠ [] || fp ≠ []) && ip.all Char.isDigit && fp.all Char.isDigit then
        some (Dec.mk' (digitsToNat (ip ++ fp)) fp.length)
      else none
  | _ => none

/-- Exponent part of a decimal literal (after `e`/`E`). -/
def parseExponent (cs : List Char) : Option ℤ :=
  match cs with
  | '-' :: rest =>
      if rest ≠ [] && rest.all Char.isDigit then
        some (-(digitsToNat rest : ℤ)) else none
  | '+' :: rest =>
      if rest ≠ [] && rest.all Char.isDigit then
        some ((digitsToNat rest : ℤ)) else none
  | rest =>
      if rest ≠ [] && rest.all Char.isDigit then
        some ((digitsToNat rest : ℤ)) else none

/-- Unsigned decimal literal with optional exponent. -/
def parseUnsignedNum (cs : List Char) : Option Dec :=
  match cs.findIdx? (fun c => c == 'e' || c == 'E') with
  | none => parseMantissa cs
  | some i =>
      match parseMantissa (cs.take i), parseExponent (cs.drop (i + 1)) with
      | some d, some ex =>
          if 0 ≤ ex then some (Dec.mk' (d.m * (10 : ℤ) ^ ex.toNat) d.e)
          else some (Dec.mk' d.m (d.e + (-ex).toNat))
      | _, _ => none

/-- JS whitespace for `Number()` trimming (the forms that matter here). -/
def isSpaceChar (c : Char) : Bool :=
  c == ' ' || c == '\t' || c == '\n' || c == '\r'

/-- Models the JS `Number()` builtin on strings: trimmed empty string is
`0`; optionally signed `Infinity`; optionally signed decimal literals
(with fraction and exponent); everything else is `NaN`.  Hexadecimal,
octal and binary literal forms are not modelled (unused here). -/
def jsNumberOfString (s : String) : JSNum :=
  let cs := ((s.toList.dropWhile isSpaceChar).reverse.dropWhile isSpaceChar).reverse
  match cs with
  | [] => .finite (Dec.ofInt 0)
  | _ =>
    let neg : Bool := match cs with
      | '-' :: _ => true
      | _ => false
    let rest := match cs with
      | '-' :: r => r
      | '+' :: r => r
      | r => r
    if rest = "Infinity".toList then
      (if neg then .ninf else .inf)
    else
      match parseUnsignedNum rest with
      | some d => .finite (if neg then d.neg else d)
      | none => .nan

/-- JS numeric coercion `Number(v)` on a possibly absent scalar:
numbers pass through, strings parse, `null` gives `0`, `undefined`
(absent) gives `NaN`. -/
def jsToNumber : Option Scalar → JSNum
  | some (.num n) => n
  | some (.str s) => jsNumberOfString s
  | some .null => JSNum.int 0
  | none => .nan

/-- The round-to-nearest overflow threshold of IEEE doubles: an exact
result whose magnitude reaches `2^1024 - 2^970` rounds to infinity. -/
def overflowThreshold : ℤ := ((2 ^ 1024 - 2 ^ 970 : ℕ) : ℤ)

/-- Whether the exact decimal value `m / 10^e` overflows a double,
i.e. `|m| / 10^e ≥ overflowThreshold`. -/
def Dec.overflows (d : Dec) : Bool :=
  decide (overflowThreshold * ((10 ^ d.e : ℕ) : ℤ) ≤ |d.m|)

/-- JS addition on numbers, with the special-value rules; a finite sum
at or beyond the IEEE overflow threshold saturates to the signed
infinity, as double addition does.  (Rounding of sub-threshold sums is
not modelled: every sub-threshold value arising here is an exact small
decimal.) -/
def jsNumAdd : JSNum → JSNum → JSNum
  | .nan, _ => .nan
  | _, .nan => .nan
  | .inf, .ninf => .nan
  | .ninf, .inf => .nan
  | .inf, _ => .inf
  | _, .inf => .inf
  | .ninf, _ => .ninf
  | _, .ninf => .ninf
  | .finite a, .finite b =>
      if (a.add b).overflows then (if (a.add b).m < 0 then .ninf else .inf)
      else .finite (a.add b)

/-- JS truthiness of a scalar: empty string, `0`, `NaN` and `null` are
falsy. -/
def jsTruthyS : Scalar → Bool
  | .str s => s ≠ ""
  | .num n => n ≠ .nan && n ≠ JSNum.int 0
  | .null => false

/-- The `v || 0` idiom on a possibly absent scalar. -/
def scalarOr0 : Option Scalar → Scalar
  | some v => if jsTruthyS v then v else .num (JSNum.int 0)
  | none => .num (JSNum.int 0)

/-- Decimal rendering of a canonical decimal fraction, as JS
`String()` would print it (`15`, `-3`, `2.5`). -/
def decToString (d : Dec) : String :=
  if d.e = 0 then toString d.m
  else
    let digs := (toString d.m.natAbs).toList
    let padded :=
      if digs.length ≤ d.e then List.replicate (d.e + 1 - digs.length) '0' ++ digs
      else digs
    let k := padded.length - d.e
    (if d.m < 0 then "-" else "") ++ String.mk (padded.take k) ++ "." ++ String.mk (padded.drop k)

/-- JS `String(v)` on a scalar. -/
def jsString : Scalar → String
  | .str s => s
  | .num (.finite d) => decToString d
  | .num .nan => "NaN"
  | .num .inf => "Infinity"
  | .num .ninf => "-Infinity"
  | .null => "null"

/-- JS `String(v)` on a possibly absent value. -/
def jsStringU : Option Scalar → String
  | some v => jsString v
  | none => "undefined"

/-- JS `+` on scalars: string concatenation if either side is a string,
numeric addition otherwise. -/
def jsAdd (a b : Scalar) : Scalar :=
  match a, b with
  | .str s, _ => .str (s ++ jsString b)
  | _, .str t => .str (jsString a ++ t)
  | _, _ => .num (jsNumAdd (jsToNumber (some a)) (jsToNumber (some b)))

example : jsNumberOfString "10" = JSNum.int 10 := by decide
example : jsNumberOfString "abc" = .nan := by decide
example : jsNumberOfString "Infinity" = .inf := by decide
example : jsNumberOfString "-Infinity" = .ninf := by decide
example : jsNumberOfString "" = JSNum.int 0 := by decide
example : jsNumberOfString "2.5" = .finite ⟨25, 1⟩ := by decide
example : jsNumberOfString "1e3" = JSNum.int 1000 := by decide
example : jsNumAdd (JSNum.int 10) (JSNum.int 5) = JSNum.int 15 := by decide
example : jsString (.num (.finite ⟨25, 1⟩)) = "2.5" := by decide
example : strIncludes "total_net_sales" "net_sales" = true := by decide
example : strIncludes "ab" "abc" = false := by decide

/-- The `v ?? dflt` idiom: `null` and `undefined` (absent) fall back. -/
def orDefault (v : Option Scalar) (dflt : Scalar) : Scalar :=
  match v with
  | some .null => dflt
  | some w => w
  | none => dflt

/-- Chart type of a visualization spec. -/
inductive VType where
  | line
  | bar
  | table
deriving DecidableEq, Repr

/-- The closed dimension vocabulary of the spec's `x` and `groupBy`
fields. -/
inductive Dim where
  | date
  | region
  | category
  | store
  | store_name
  | store_id
  | sku
deriving DecidableEq, Repr

/-- The string literal a dimension stands for. -/
def dimName : Dim → String
  | .date => "date"
  | .region => "region"
  | .category => "category"
  | .store => "store"
  | .store_name => "store_name"
  | .store_id => "store_id"
  | .sku => "sku"

/-- Aggregation hint of the spec (carried but never consulted by the
transform). -/
inductive Agg where
  | sum
  | avg
  | count
deriving DecidableEq, Repr

/-- The `VizSpec` type of `page.tsx`. -/
structure VizSpec where
  type : VType
  x : Option Dim := none
  y : List String := []
  groupBy : List Dim := []
  aggregation : Option Agg := none
deriving DecidableEq, Repr

/-- `pickXKey` from `page.tsx`: explicit x hint first (with the
temporal-column search when the hint is `date`), then the groupBy
dimensions and the x hint as literal columns, then the first
string-valued column, then the first column. -/
def pickXKey (viz : VizSpec) (rows : List Obj) : Option String :=
  let step1 : Option String :=
    match viz.x, rows with
    | some vx, r0 :: _ =>
        if (getV r0 (dimName vx)).isSome then some (dimName vx)
        else if vx == Dim.date then
          match ["date", "month", "year", "quarter", "week", "day"].find?
              (fun c => (getV r0 c).isSome) with
          | some c => some c
          | none =>
              (keysOf r0).find? (fun k =>
                strIncludes (strToLower k) "date" || strIncludes (strToLower k) "month" ||
                  strIncludes (strToLower k) "year")
        else none
    | _, _ => none
  match step1 with
  | some k => some k
  | none =>
      let candidates := viz.groupBy.map dimName ++
        (match viz.x with | some vx => [dimName vx] | none => [])
      match rows with
      | [] => none
      | r0 :: _ =>
          match candidates.find? (fun k => (getV r0 k).isSome) with
          | some k => some k
          | none =>
              match (keysOf r0).find? (fun k =>
                  match getV r0 k with
                  | some (.str _) => true
                  | _ => false) with
              | some k => some k
              | none => (keysOf r0).head?

/-- The fuzzy-match predicate the `actualYKey` resolution uses: the
column case-insensitively contains the hint, or the hint contains the
column, or their underscore-stripped lower-cased forms coincide. -/
def fuzzyY (yk k : String) : Bool :=
  strIncludes (strToLower k) (strToLower yk) || strIncludes (strToLower yk) (strToLower k) ||
    stripUnderscores (strToLower k) == stripUnderscores (strToLower yk)

/-- The `actualYKey` computation of `ChartOrTable` and
`FullscreenChart` (both sites are textually identical): the first y
hint; if the hint is truthy (non-empty, per the `rows.length > 0 &&
yKey` guard) and not a key of the first row, the first fuzzy-matching
key; if none matches, the hint itself is kept. -/
def resolveYKey (viz : VizSpec) (rows : List Obj) : Option String :=
  match viz.y.head?, rows with
  | some yk, r0 :: _ =>
      if yk == "" then some yk
      else if (getV r0 yk).isSome then some yk
      else
        match (keysOf r0).find? (fun k => fuzzyY yk k) with
        | some k => some k
        | none => some yk
  | some yk, [] => some yk
  | none, _ => none

/-- The numeric coercion applied to a row's y value in the `mapped`
step: strings parse if the parse is not `NaN`, numbers pass through,
everything else becomes `0`. -/
def coerceY : Option Scalar → JSNum
  | some (.str s) =>
      match jsNumberOfString s with
      | .nan => JSNum.int 0
      | n => n
  | some (.num n) => n
  | _ => JSNum.int 0

/-- The groupBy `forEach` body of the `mapped` step: copy the row's
value for a dimension into the point, under the dimension's own name
(the `store` dimension also matches `store_name`/`store_id` columns). -/
def addDimField (r : Obj) (acc : Obj) (dim : Dim) : Obj :=
  match (keysOf r).find? (fun k =>
      (strToLower k) == strToLower (dimName dim) ||
        (dim == Dim.store && ((strToLower k) == "store_name" || (strToLower k) == "store_id"))) with
  | some dimKey =>
      match getV r dimKey with
      | some v => setV acc (dimName dim) v
      | none => acc
  | none => acc

/-- One `mapped` element: `x` (defaulted to `"Unknown"`), the coerced
`y`, and a field per groupBy dimension found in the row.  The fold over
an empty `groupBy` is the identity, matching the guarded `forEach`. -/
def mapRow (viz : VizSpec) (xKey : Option String) (yk : String) (r : Obj) : Obj :=
  let xVal : Option Scalar := xKey.bind (fun k => getV r k)
  let base : Obj := [("x", orDefault xVal (.str "Unknown")), ("y", .num (coerceY (getV r yk)))]
  viz.groupBy.foldl (addDimField r) base

/-- The `mapped` filter `d.y !== undefined && d.y !== null && !isNaN(d.y)`. -/
def keepPoint (d : Obj) : Bool :=
  match getV d "y" with
  | none => false
  | some .null => false
  | some v => jsToNumber (some v) != JSNum.nan

/-- Association-map read for the JS `Map`s the transform uses
(insertion-ordered, as JS `Map` iteration is). -/
def amGet {β : Type} (m : List (String × β)) (k : String) : Option β :=
  (m.find? (fun kv => kv.1 == k)).map (fun kv => kv.2)

/-- Association-map write: update in place or append. -/
def amSet {β : Type} (m : List (String × β)) (k : String) (v : β) : List (String × β) :=
  if (amGet m k).isSome then m.map (fun kv => if kv.1 == k then (k, v) else kv)
  else m ++ [(k, v)]

/-- The composite key of the no-x-axis aggregation:
`viz.groupBy.map(dim => String(d[dim] ?? 'Unknown')).join('|')`. -/
def groupKeyOf (viz : VizSpec) (d : Obj) : String :=
  String.intercalate "|"
    (viz.groupBy.map (fun dim => jsString (orDefault (getV d (dimName dim)) (.str "Unknown"))))

/-- One step of the no-x-axis aggregation fold: merge a mapped point
into its composite-key bucket, summing `y`
(`(existing.y || 0) + (d.y || 0)`); a new bucket takes the first
groupBy dimension's value as `x` (`d[groupBy[0]] ?? groupKey`). -/
def groupNoXStep (viz : VizSpec) (acc : List (String × Obj)) (d : Obj) : List (String × Obj) :=
  let gk := groupKeyOf viz d
  match amGet acc gk with
  | some existing =>
      amSet acc gk
        (setV existing "y" (jsAdd (scalarOr0 (getV existing "y")) (scalarOr0 (getV d "y"))))
  | none =>
      let firstV : Scalar :=
        match viz.groupBy.head? with
        | some dim0 => orDefault (getV d (dimName dim0)) (.str gk)
        | none => .str gk
      acc ++ [(gk, setV d "x" firstV)]

/-- The no-x-axis aggregation branch. -/
def groupNoX (viz : VizSpec) (mapped : List Obj) : List Obj :=
  (mapped.foldl (groupNoXStep viz) []).map (fun kv => kv.2)

/-- The groupBy `forEach` body of the pivot: add the point's `y` into
the entry column named by the stringified dimension value
(`xEntry[dimValue] = (xEntry[dimValue] || 0) + (d.y || 0)`). -/
def pivotAddDim (d : Obj) (e : Obj) (dim : Dim) : Obj :=
  match getV d (dimName dim) with
  | none => e
  | some v =>
      let dimValue := jsString v
      setV e dimValue (jsAdd (scalarOr0 (getV e dimValue)) (scalarOr0 (getV d "y")))

/-- One step of the pivot fold: ensure an entry for the stringified
`x` exists, then fold the groupBy dimensions into it. -/
def pivotStep (viz : VizSpec) (acc : List (String × Obj)) (d : Obj) : List (String × Obj) :=
  let xStr := jsStringU (getV d "x")
  let acc1 := if (amGet acc xStr).isSome then acc else acc ++ [(xStr, [("x", Scalar.str xStr)])]
  let entry := (amGet acc1 xStr).getD []
  amSet acc1 xStr (viz.groupBy.foldl (pivotAddDim d) entry)

/-- The pivot branch: one entry per stringified `x`, one numeric column
per groupBy dimension value encountered. -/
def pivotX (viz : VizSpec) (mapped : List Obj) : List Obj :=
  (mapped.foldl (pivotStep viz) []).map (fun kv => kv.2)

/-- Day ordinal of a calendar date, monotone in (year, month, day). -/
def dateOrd (y mo d : ℕ) : ℤ :=
  (y : ℤ) * 10000 + (mo : ℤ) * 100 + (d : ℤ)

/-- Models JS `Date` parsing (`new Date(s).getTime()`), restricted to
the ISO calendar-date forms the transform meets: `YYYY`, `YYYY-MM`,
`YYYY-MM-DD`.  Any other string is an invalid date, i.e. a `NaN` time,
modelled as `none`.  `new Date` never throws, so the source's
`try`/`catch` fallback is unreachable. -/
def jsDateParse (s : String) : Option ℤ :=
  let chk (cs : List Char) (len : ℕ) : Bool := cs.length == len && cs.all Char.isDigit
  match s.toList.splitOn '-' with
  | [y] => if chk y 4 then some (dateOrd (digitsToNat y) 1 1) else none
  | [y, mo] =>
      if chk y 4 && chk mo 2 && decide (1 ≤ digitsToNat mo) && decide (digitsToNat mo ≤ 12) then
        some (dateOrd (digitsToNat y) (digitsToNat mo) 1)
      else none
  | [y, mo, d] =>
      if chk y 4 && chk mo 2 && chk d 2 && decide (1 ≤ digitsToNat mo) &&
          decide (digitsToNat mo ≤ 12) && decide (1 ≤ digitsToNat d) &&
          decide (digitsToNat d ≤ 31) then
        some (dateOrd (digitsToNat y) (digitsToNat mo) (digitsToNat d))
      else none
  | _ => none

/-- The `x` of a built point, stringified. -/
def xStrOf (o : Obj) : String := jsStringU (getV o "x")

/-- Value of the date comparator `new Date(a.x).getTime() - new
Date(b.x).getTime()`: if either time is `NaN` the subtraction is `NaN`,
which ECMAScript's `SortCompare` reads as `+0`. -/
def dateCmpVal : Option ℤ → Option ℤ → ℤ
  | some a, some b => a - b
  | _, _ => 0

/-- The temporal sort comparator of the pivot branch. -/
def dateCmp (a b : Obj) : ℤ :=
  dateCmpVal (jsDateParse (xStrOf a)) (jsDateParse (xStrOf b))

/-- Code-unit lexicographic comparison, modelling
`String.prototype.localeCompare` on the ASCII data at hand. -/
def lexCmpL : List Char → List Char → ℤ
  | [], [] => 0
  | [], _ :: _ => -1
  | _ :: _, [] => 1
  | a :: as, b :: bs => if a < b then -1 else if b < a then 1 else lexCmpL as bs

/-- The non-temporal sort comparator `String(a.x).localeCompare(String(b.x))`. -/
def lexCmp (a b : Obj) : ℤ :=
  lexCmpL (xStrOf a).toList (xStrOf b).toList

/-- Insert an element after every element not strictly greater,
the stable-insertion step. -/
def insertCmp (c : α → α → ℤ) (x : α) : List α → List α
  | [] => [x]
  | y :: ys => if c x y < 0 then x :: y :: ys else y :: insertCmp c x ys

/-- `Array.prototype.sort` with a comparator, modelled as a stable
insertion sort: ES2019 requires the sort to be stable, and on every
comparator-`NaN` (treated as `0`) pair arising here stability alone
fixes the order. -/
def jsSort (c : α → α → ℤ) (l : List α) : List α :=
  l.foldl (fun acc x => insertCmp c x acc) []

/-- Whether the pivot sort parses dates: the x hint is temporal, or the
resolved x column name contains `date`, `month` or `year`. -/
def isDateSortKey (viz : VizSpec) (xKey : Option String) : Bool :=
  viz.x == some Dim.date ||
    (match xKey with
     | some xk => ["date", "month", "year"].any (fun w => strIncludes (strToLower xk) w)
     | none => false)

/-- The sort applied to pivoted rows. -/
def sortPivot (viz : VizSpec) (xKey : Option String) (data : List Obj) : List Obj :=
  if isDateSortKey viz xKey then jsSort dateCmp data else jsSort lexCmp data

/-- The `data` computation of `ChartOrTable` (non-table path): guard on
rows and a truthy `actualYKey`, map and filter, then the three-way
branch on `groupBy`/x-axis (the inner `xKey && viz.groupBy.length > 0`
test of the source is kept verbatim). -/
def chartData (viz : VizSpec) (rows : List Obj) : List Obj :=
  match resolveYKey viz rows with
  | none => []
  | some yk =>
      if rows.isEmpty || yk == "" then []
      else
        let xKey := pickXKey viz rows
        let mapped := (rows.map (mapRow viz xKey yk)).filter keepPoint
        if !viz.groupBy.isEmpty then
          if xKey.isNone || viz.x.isNone then groupNoX viz mapped
          else
            if xKey.isSome && !viz.groupBy.isEmpty then
              sortPivot viz xKey (pivotX viz mapped)
            else mapped
        else mapped

/-- Negation of a JS number. -/
def jsNumNeg : JSNum → JSNum
  | .finite d => .finite d.neg
  | .nan => .nan
  | .inf => .ninf
  | .ninf => .inf

/-- JS subtraction on numbers. -/
def jsNumSub (a b : JSNum) : JSNum :=
  jsNumAdd a (jsNumNeg b)

/-- Read a JS-number comparator result the way ECMAScript `SortCompare`
does: sign for finite values, `NaN` counts as `+0`. -/
def cmpNumVal : JSNum → ℤ
  | .finite d => if d.m < 0 then -1 else if 0 < d.m then 1 else 0
  | .inf => 1
  | .ninf => -1
  | .nan => 0

/-- The `v || 0` idiom on a possibly absent number. -/
def numOr0 : Option JSNum → JSNum
  | some .nan => JSNum.int 0
  | some n => n
  | none => JSNum.int 0

/-- Pair list elements with their indices starting at `i`. -/
def withIdx {α : Type} : ℕ → List α → List (ℕ × α)
  | _, [] => []
  | i, x :: xs => (i, x) :: withIdx (i + 1) xs

/-- Comparator `(a, b) => b.value - a.value` over aggregated numbers. -/
def itemCmpDesc (a b : String × JSNum) : ℤ :=
  cmpNumVal (jsNumSub b.2 a.2)

/-- `typeof v === 'number' ? v : 0`. -/
def numIfNum : Scalar → JSNum
  | .num n => n
  | _ => JSNum.int 0

/-- Comparator of the non-temporal top-results sort: descending by the
numeric value, non-numbers ranking as `0`. -/
def rankCmpDesc (a b : String × Scalar) : ℤ :=
  cmpNumVal (jsNumSub (numIfNum b.2) (numIfNum a.2))

/-- The inline `TopList` of `ChartOrTable` (limit 10): with a temporal
x hint and a groupBy, sum `Number(r[yKey] ?? 0)` over all raw rows per
value of the first groupBy dimension's resolved column, sort descending
and take 10; if that column or the y key is missing, list the first 10
raw rows; otherwise one item per raw row, sorted descending by numeric
value, take 10. -/
def topListInline (viz : VizSpec) (rows : List Obj) : List (String × Scalar) :=
  let xKey := pickXKey viz rows
  let displayYKey := resolveYKey viz rows
  if viz.x == some Dim.date && !viz.groupBy.isEmpty && !rows.isEmpty then
    let gcol : Option String :=
      match viz.groupBy.head?, rows.head? with
      | some g, some r0 =>
          (keysOf r0).find? (fun k =>
            strToLower k == strToLower (dimName g) ||
              (g == Dim.store && (strToLower k == "store_name" || strToLower k == "store_id")))
      | _, _ => none
    match gcol, displayYKey with
    | some gc, some dyk =>
        let agg := rows.foldl (fun (acc : List (String × JSNum)) r =>
          let groupValue := jsString (orDefault (getV r gc) (.str "Unknown"))
          let yValue := jsToNumber (some (orDefault (getV r dyk) (.num (JSNum.int 0))))
          amSet acc groupValue (jsNumAdd (numOr0 (amGet acc groupValue)) yValue)) []
        ((jsSort itemCmpDesc agg).take 10).map (fun kv => (kv.1, Scalar.num kv.2))
    | _, _ =>
        (withIdx 0 (rows.take 10)).map (fun p =>
          let label := match xKey with
            | some xk => jsString (orDefault (getV p.2 xk) (.str "N/A"))
            | none => "Row " ++ toString (p.1 + 1)
          let v : Scalar := match displayYKey with
            | some dyk => orDefault (getV p.2 dyk) (.str "N/A")
            | none => .str "N/A"
          (label, v))
  else
    ((jsSort rankCmpDesc (rows.map (fun r =>
        (match xKey with
         | some xk => jsString (orDefault (getV r xk) (.str "N/A"))
         | none => "N/A",
         match displayYKey with
         | some dyk => orDefault (getV r dyk) (.num (JSNum.int 0))
         | none => Scalar.num (JSNum.int 0))))).take 10)

/-- The full-screen `TopList` of `FullscreenChart` (limit 20): the
first 20 raw rows in input order, label and value read off directly,
with no aggregation and no sorting. -/
def topListFullscreen (viz : VizSpec) (rows : List Obj) : List (String × Scalar) :=
  let xKey := pickXKey viz rows
  let displayYKey := resolveYKey viz rows
  (rows.take 20).map (fun r =>
    (match xKey with
     | some xk => jsString (orDefault (getV r xk) (.str "N/A"))
     | none => "N/A",
     match displayYKey with
     | some dyk => orDefault (getV r dyk) (.str "N/A")
     | none => Scalar.str "N/A"))

/-- Table mode: the column headers, `Object.keys(rows[0] || {})`. -/
def tableCols (rows : List Obj) : List String :=
  match rows with
  | [] => []
  | r0 :: _ => keysOf r0

/-- Table mode: the rendered body, `rows.slice(0, 50)` with every cell
`String(r[c])` for the first row's columns. -/
def renderTableRows (rows : List Obj) : List (List String) :=
  (rows.take 50).map (fun r => (tableCols rows).map (fun c => jsStringU (getV r c)))

/-- The diagnostic key listing rendered when no data points remain:
`rows.length > 0 ? Object.keys(rows[0]).join(', ') : 'none'`. -/
def availableKeysText (rows : List Obj) : String :=
  match rows with
  | [] => "none"
  | r0 :: _ => String.intercalate ", " (keysOf r0)

/-- `FullscreenChart`'s copy of the groupBy `forEach` body of the
`mapped` step (textually identical to the one in `ChartOrTable`). -/
def addDimFieldFS (r : Obj) (acc : Obj) (dim : Dim) : Obj :=
  match (keysOf r).find? (fun k =>
      (strToLower k) == strToLower (dimName dim) ||
        (dim == Dim.store && ((strToLower k) == "store_name" || (strToLower k) == "store_id"))) with
  | some dimKey =>
      match getV r dimKey with
      | some v => setV acc (dimName dim) v
      | none => acc
  | none => acc

/-- `FullscreenChart`'s copy of the `mapped` computation (textually
identical to the one in `ChartOrTable`). -/
def mapRowFS (viz : VizSpec) (xKey : Option String) (yk : String) (r : Obj) : Obj :=
  let xVal : Option Scalar := xKey.bind (fun k => getV r k)
  let base : Obj := [("x", orDefault xVal (.str "Unknown")), ("y", .num (coerceY (getV r yk)))]
  viz.groupBy.foldl (addDimFieldFS r) base

/-- `FullscreenChart`'s copy of the `mapped` filter. -/
def keepPointFS (d : Obj) : Bool :=
  match getV d "y" with
  | none => false
  | some .null => false
  | some v => jsToNumber (some v) != JSNum.nan

/-- `FullscreenChart`'s copy of the no-x-axis aggregation step. -/
def groupNoXStepFS (viz : VizSpec) (acc : List (String × Obj)) (d : Obj) : List (String × Obj) :=
  let gk := groupKeyOf viz d
  match amGet acc gk with
  | some existing =>
      amSet acc gk
        (setV existing "y" (jsAdd (scalarOr0 (getV existing "y")) (scalarOr0 (getV d "y"))))
  | none =>
      let firstV : Scalar :=
        match viz.groupBy.head? with
        | some dim0 => orDefault (getV d (dimName dim0)) (.str gk)
        | none => .str gk
      acc ++ [(gk, setV d "x" firstV)]

/-- `FullscreenChart`'s copy of the no-x-axis aggregation. -/
def groupNoXFS (viz : VizSpec) (mapped : List Obj) : List Obj :=
  (mapped.foldl (groupNoXStepFS viz) []).map (fun kv => kv.2)

/-- `FullscreenChart`'s copy of the pivot's groupBy `forEach` body. -/
def pivotAddDimFS (d : Obj) (e : Obj) (dim : Dim) : Obj :=
  match getV d (dimName dim) with
  | none => e
  | some v =>
      let dimValue := jsString v
      setV e dimValue (jsAdd (scalarOr0 (getV e dimValue)) (scalarOr0 (getV d "y")))

/-- `FullscreenChart`'s copy of the pivot step. -/
def pivotStepFS (viz : VizSpec) (acc : List (String × Obj)) (d : Obj) : List (String × Obj) :=
  let xStr := jsStringU (getV d "x")
  let acc1 := if (amGet acc xStr).isSome then acc else acc ++ [(xStr, [("x", Scalar.str xStr)])]
  let entry := (amGet acc1 xStr).getD []
  amSet acc1 xStr (viz.groupBy.foldl (pivotAddDimFS d) entry)

/-- `FullscreenChart`'s copy of the pivot. -/
def pivotXFS (viz : VizSpec) (mapped : List Obj) : List Obj :=
  (mapped.foldl (pivotStepFS viz) []).map (fun kv => kv.2)

/-- `FullscreenChart`'s copy of the pivot sort. -/
def sortPivotFS (viz : VizSpec) (xKey : Option String) (data : List Obj) : List Obj :=
  if isDateSortKey viz xKey then jsSort dateCmp data else jsSort lexCmp data

/-- The `data` computation of `FullscreenChart`: same as
`ChartOrTable`'s except that the pivot branch is entered directly,
without the (always-true there) inner `xKey && viz.groupBy.length > 0`
test. -/
def fullscreenData (viz : VizSpec) (rows : List Obj) : List Obj :=
  match resolveYKey viz rows with
  | none => []
  | some yk =>
      if rows.isEmpty || yk == "" then []
      else
        let xKey := pickXKey viz rows
        let mapped := (rows.map (mapRowFS viz xKey yk)).filter keepPointFS
        if !viz.groupBy.isEmpty then
          if xKey.isNone || viz.x.isNone then groupNoXFS viz mapped
          else sortPivotFS viz xKey (pivotXFS viz mapped)
        else mapped

/-- The pivot-correctness example rows of the spec: columns
`month, region, sales`. -/
def rowsPivotEx : List Obj :=
  [[("month", .str "2024-01"), ("region", .str "North"), ("sales", .num (JSNum.int 10))],
   [("month", .str "2024-01"), ("region", .str "South"), ("sales", .num (JSNum.int 20))],
   [("month", .str "2024-02"), ("region", .str "North"), ("sales", .num (JSNum.int 5))]]

/-- Spec for the pivot example: temporal x, `groupBy = [region]`. -/
def vizPivotEx : VizSpec :=
  { type := .line, x := some .date, y := ["sales"], groupBy := [.region] }

/-- The aggregation-correctness example rows of the spec: string
`sales` values, no temporal column. -/
def rowsGroupEx : List Obj :=
  [[("region", .str "North"), ("sales", .str "10")],
   [("region", .str "North"), ("sales", .str "5")],
   [("region", .str "South"), ("sales", .str "3")]]

/-- Spec for the aggregation example: `groupBy = [region]`, no x. -/
def vizGroupEx : VizSpec :=
  { type := .bar, y := ["sales"], groupBy := [.region] }

/-- A single row whose `sales` value is not numeric. -/
def rowsAbcEx : List Obj :=
  [[("month", .str "2024-01"), ("sales", .str "abc")]]

/-- A plain spec with only a y hint (no x, no groupBy). -/
def vizFlatEx : VizSpec := { type := .bar, y := ["sales"] }

/-- A single row whose `sales` value is the number `Infinity`. -/
def rowsInfEx : List Obj :=
  [[("month", .str "2024-01"), ("sales", .num .inf)]]

/-- Pivot rows whose `month` values do not parse as dates, in
anti-lexicographic order. -/
def rowsFruitEx : List Obj :=
  [[("month", .str "banana"), ("region", .str "North"), ("sales", .num (JSNum.int 1))],
   [("month", .str "apple"), ("region", .str "North"), ("sales", .num (JSNum.int 2))]]

/-- A row with no column resembling the y hint `sales`. -/
def rowsQqqEx : List Obj := [[("qqq", .str "North")]]

/-- The fuzzy-match sample row: `total_net_sales` present,
`net_sales` absent. -/
def rowNetEx : Obj :=
  [("mn", .str "2024-01"), ("total_net_sales", .num (JSNum.int 7))]

/-- Spec with the y hint `net_sales`. -/
def vizNetEx : VizSpec := { type := .bar, y := ["net_sales"] }

/-- Rows where the first groupBy dimension (`region`) is constant but
the second (`category`) differs. -/
def rowsTwoDimEx : List Obj :=
  [[("month", .str "2024-01"), ("region", .str "North"), ("category", .str "A"),
    ("sales", .num (JSNum.int 1))],
   [("month", .str "2024-01"), ("region", .str "North"), ("category", .str "B"),
    ("sales", .num (JSNum.int 2))]]

/-- Spec with two groupBy dimensions. -/
def vizTwoDimEx : VizSpec :=
  { type := .line, x := some .date, y := ["sales"], groupBy := [.region, .category] }

/-- Spec whose groupBy dimension (`sku`) matches no column of
`rowsPivotEx`. -/
def vizSkuEx : VizSpec :=
  { type := .line, x := some .date, y := ["sales"], groupBy := [.sku] }

/-- Two rows in ascending y order (so a descending sort reverses them). -/
def rowsCatEx : List Obj :=
  [[("cat", .str "A"), ("sales", .num (JSNum.int 1))],
   [("cat", .str "B"), ("sales", .num (JSNum.int 2))]]

/-- Spec for the ranking-divergence input: non-temporal, no groupBy. -/
def vizCatEx : VizSpec := { type := .bar, y := ["sales"] }

/-- A small table input. -/
def rowsTableEx : List Obj :=
  [[("a", .str "u"), ("b", .num (JSNum.int 1))], [("a", .str "v"), ("b", .null)]]

/-- A spec with no y hint at all. -/
def vizNoYEx : VizSpec := { type := .bar }

/-- C1: with `groupBy = [region]` and the x hint `date` resolving to
`month`, the Series Builder pivots the example rows into exactly
`{x: 2024-01, North: 10, South: 20}` and `{x: 2024-02, North: 5}`,
in chronological order, with the missing `South` column of `2024-02`
absent rather than zero-filled. -/
theorem seriesBuilder_pivot_example :
    chartData vizPivotEx rowsPivotEx =
      [[("x", .str "2024-01"), ("North", .num (JSNum.int 10)), ("South", .num (JSNum.int 20))],
       [("x", .str "2024-02"), ("North", .num (JSNum.int 5))]] := by decide

/-- C2: with `groupBy = [region]` and no x hint, the Series Builder
merges the example rows by the composite group key, summing the parsed
string y values, and yields exactly the point North with y 15 then
South with y 3, in first-seen order, each with `x` set to the first
groupBy dimension's value. -/
theorem seriesBuilder_groupNoX_example :
    chartData vizGroupEx rowsGroupEx =
      [[("x", .str "North"), ("y", .num (JSNum.int 15)), ("region", .str "North")],
       [("x", .str "South"), ("y", .num (JSNum.int 3)), ("region", .str "South")]] := by decide

/-- C3: the inline Ranking Summarizer on a temporal x with groupBy
sums y per value of the first groupBy dimension across all rows and
sorts descending (South 20 before North 15 on the pivot example, a
different shape than the per-month pivot); with two groupBy dimensions
only the first is used (North totals 3); and when the groupBy dimension
resolves to no column it lists the first rows in original order with
stringified x labels. -/
theorem topList_temporal_ranking :
    topListInline vizPivotEx rowsPivotEx =
        [("South", .num (JSNum.int 20)), ("North", .num (JSNum.int 15))] ∧
      topListInline vizTwoDimEx rowsTwoDimEx = [("North", .num (JSNum.int 3))] ∧
      topListInline vizSkuEx rowsPivotEx =
        [("2024-01", .num (JSNum.int 10)), ("2024-01", .num (JSNum.int 20)),
         ("2024-02", .num (JSNum.int 5))] := by decide

/-- C4: at the failing input (a row whose y value `"abc"` fails numeric
coercion) the Series Builder does not drop the point: the coercion
substitutes `0` and the `isNaN` filter keeps it, so the output contains
the point with y 0, contradicting the claimed (and previously
implemented) drop behaviour. -/
theorem nonNumericY_kept_as_zero :
    chartData vizFlatEx rowsAbcEx =
      [[("x", .str "2024-01"), ("y", .num (JSNum.int 0))]] := by decide

/-- Test that a scalar is a number other than `NaN` (finite or a
signed infinity). -/
def isNumNonNaN : Scalar → Bool
  | .num n => n != JSNum.nan
  | _ => false

/-- The y values C5 speaks about: in the pivot branch every per-series
column of every pivoted row (all fields except `x`), otherwise the `y`
field of every point. -/
def claimYValues (viz : VizSpec) (rows : List Obj) : List Scalar :=
  if !viz.groupBy.isEmpty && (pickXKey viz rows).isSome && viz.x.isSome then
    (chartData viz rows).flatMap (fun o => (o.filter (fun kv => kv.1 != "x")).map (fun kv => kv.2))
  else
    (chartData viz rows).filterMap (fun o => getV o "y")

/-- C5 counterexample: a row whose y value is the number `Infinity`
passes the `isNaN`-only filter, so `Infinity` appears as an output y
value, refuting the claim that no `Infinity` ever appears for any
input. -/
theorem infinity_leaks_to_output :
    claimYValues vizFlatEx rowsInfEx = [Scalar.num JSNum.inf] := by decide

/-- C6 counterexample: on the same (spec, rows) pair the inline
ranking (sorted descending) and the full-screen ranking (first rows in
input order) disagree even within the shorter limit of 10, refuting
the claimed agreement of the two consumers' ranked summaries. -/
theorem topLists_diverge :
    topListInline vizCatEx rowsCatEx =
        [("B", .num (JSNum.int 2)), ("A", .num (JSNum.int 1))] ∧
      topListFullscreen vizCatEx rowsCatEx =
        [("A", .num (JSNum.int 1)), ("B", .num (JSNum.int 2))] ∧
      topListInline vizCatEx rowsCatEx ≠ (topListFullscreen vizCatEx rowsCatEx).take 10 := by
  decide

/-- C8 counterexample: the y hint `sales` matches no column of the row
(no exact key and no fuzzy candidate), yet the Series Builder does not
produce an empty result: the unresolved hint is kept and the point
survives with y 0, so the no-valid-data diagnostic never renders. -/
theorem unresolved_y_gives_zero_points :
    getV (rowsQqqEx.headD []) "sales" = none ∧
      (keysOf (rowsQqqEx.headD [])).all (fun k => !fuzzyY "sales" k) = true ∧
      resolveYKey vizFlatEx rowsQqqEx = some "sales" ∧
      chartData vizFlatEx rowsQqqEx =
        [[("x", .str "North"), ("y", .num (JSNum.int 0))]] := by decide

/-- The comparator C9 describes, stated from the claim's words (parse
both sides as dates and compare chronologically; on a parse failure of
either side fall back to lexicographic string comparison for that
pair), for comparison against the code's `dateCmp`. -/
def claimedDateCmp (a b : Obj) : ℤ :=
  match jsDateParse (xStrOf a), jsDateParse (xStrOf b) with
  | some ta, some tb => ta - tb
  | _, _ => lexCmpL (xStrOf a).toList (xStrOf b).toList

/-- The pivoted (pre-sort) rows of the unparseable-date example. -/
def pivotFruitEx : List Obj :=
  pivotX vizPivotEx
    ((rowsFruitEx.map (mapRow vizPivotEx (pickXKey vizPivotEx rowsFruitEx) "sales")).filter
      keepPoint)

/-- C9 counterexample: on x values `banana`, `apple` (both invalid
dates) the code keeps input order, because `new Date` never throws and
the `NaN` comparator result counts as equal; the claimed per-pair
lexicographic fallback would instead produce `apple`, `banana`. -/
theorem date_sort_no_lex_fallback :
    (chartData vizPivotEx rowsFruitEx).map xStrOf = ["banana", "apple"] ∧
      (jsSort claimedDateCmp pivotFruitEx).map xStrOf = ["apple", "banana"] := by decide

/-! ### Structural lemmas about the object and map operations -/

theorem getV_eq_amGet (o : Obj) (k : String) : getV o k = amGet o k := rfl

theorem setV_eq_amSet (o : Obj) (k : String) (v : Scalar) : setV o k v = amSet o k v := rfl

theorem amGet_mem {β : Type} {m : List (String × β)} {k : String} {v : β}
    (h : amGet m k = some v) : (k, v) ∈ m := by
  unfold amGet at h
  cases hf : m.find? (fun kv => kv.1 == k) with
  | none => rw [hf] at h; simp at h
  | some kv =>
      rw [hf] at h
      have hp := List.find?_some hf
      have hm : kv ∈ m := List.mem_of_find?_eq_some hf
      have hk : kv.1 = k := by simpa using hp
      have hv : kv.2 = v := by simpa using h
      have hkv : (k, v) = kv := by
        cases kv
        simp_all
      rw [hkv]; exact hm

theorem mem_amSet {β : Type} {m : List (String × β)} {k : String} {v : β} {p : String × β}
    (h : p ∈ amSet m k v) : p = (k, v) ∨ p ∈ m := by
  unfold amSet at h
  by_cases hs : (amGet m k).isSome
  · rw [if_pos hs] at h
    rcases List.mem_map.mp h with ⟨q, hq, hfq⟩
    by_cases hqk : (q.1 == k) = true
    · left; rw [← hfq]; simp [hqk]
    · right; rw [← hfq]; simp [hqk]; exact hq
  · rw [if_neg hs] at h
    rcases List.mem_append.mp h with h1 | h2
    · right; exact h1
    · left; simpa using h2

theorem amGet_replace_self {β : Type} (m : List (String × β)) (k : String) (v : β)
    (hs : (amGet m k).isSome = true) :
    amGet (m.map (fun kv => if kv.1 == k then (k, v) else kv)) k = some v := by
  induction m with
  | nil => simp [amGet] at hs
  | cons q m ih =>
      by_cases hq : (q.1 == k) = true
      · simp [amGet, List.find?, hq]
      · have hs' : (amGet m k).isSome = true := by
          revert hs
          simp [amGet, List.find?, hq]
        have hrec := ih hs'
        simp only [amGet, List.map, List.find?, hq] at hrec ⊢
        simpa [hq] using hrec

theorem amGet_append_self {β : Type} (m : List (String × β)) (k : String) (v : β)
    (hn : amGet m k = none) :
    amGet (m ++ [(k, v)]) k = some v := by
  induction m with
  | nil => simp [amGet, List.find?]
  | cons q m ih =>
      by_cases hq : (q.1 == k) = true
      · simp [amGet, List.find?, hq] at hn
      · have hn' : amGet m k = none := by
          revert hn
          simp [amGet, List.find?, hq]
        have hrec := ih hn'
        simp only [amGet, List.cons_append, List.find?, hq] at hrec ⊢
        simpa [hq] using hrec

theorem amGet_cons {β : Type} (q : String × β) (m : List (String × β)) (k : String) :
    amGet (q :: m) k = if (q.1 == k) = true then some q.2 else amGet m k := by
  by_cases h : (q.1 == k) = true <;> simp [amGet, List.find?, h]

theorem amGet_replace_ne {β : Type} (m : List (String × β)) (k k' : String) (v : β)
    (h : (k' == k) = false) :
    amGet (m.map (fun kv => if kv.1 == k then (k, v) else kv)) k' = amGet m k' := by
  have hne : k' ≠ k := by
    intro he; rw [he] at h; simp at h
  induction m with
  | nil => simp [amGet]
  | cons q m ih =>
      rw [List.map_cons]
      by_cases hq : (q.1 == k) = true
      · have hq1 : q.1 = k := by simpa using hq
        have hkk' : (k == k') = false := by
          cases hx : (k == k')
          · rfl
          · exact absurd ((by simpa using hx : k = k').symm) hne
        have hqk' : (q.1 == k') = false := by rw [hq1]; exact hkk'
        rw [if_pos hq, amGet_cons, amGet_cons]
        simp only [hkk', hqk']
        simpa using ih
      · rw [if_neg hq, amGet_cons, amGet_cons]
        by_cases hx : (q.1 == k') = true
        · simp [hx]
        · simp only [hx]
          simpa using ih

theorem amGet_append_ne {β : Type} (m : List (String × β)) (k k' : String) (v : β)
    (h : (k' == k) = false) :
    amGet (m ++ [(k, v)]) k' = amGet m k' := by
  have hne : k' ≠ k := by
    intro he; rw [he] at h; simp at h
  induction m with
  | nil =>
      have hk : (k == k') = false := by
        cases hx : (k == k')
        · rfl
        · exact absurd ((by simpa using hx : k = k').symm) hne
      simp [amGet, List.find?, hk]
  | cons q m ih =>
      rw [List.cons_append, amGet_cons, amGet_cons]
      by_cases hx : (q.1 == k') = true
      · simp [hx]
      · simp only [hx]
        simpa using ih

theorem amGet_amSet_self {β : Type} (m : List (String × β)) (k : String) (v : β) :
    amGet (amSet m k v) k = some v := by
  unfold amSet
  by_cases hs : (amGet m k).isSome
  · rw [if_pos hs]; exact amGet_replace_self m k v hs
  · rw [if_neg hs]
    exact amGet_append_self m k v (Option.not_isSome_iff_eq_none.mp hs)

theorem amGet_amSet_ne {β : Type} (m : List (String × β)) (k k' : String) (v : β)
    (h : k' ≠ k) :
    amGet (amSet m k v) k' = amGet m k' := by
  have hb : (k' == k) = false := by
    cases hx : (k' == k)
    · rfl
    · exact absurd (by simpa using hx) h
  unfold amSet
  by_cases hs : (amGet m k).isSome
  · rw [if_pos hs]; exact amGet_replace_ne m k k' v hb
  · rw [if_neg hs]; exact amGet_append_ne m k k' v hb

/-! ### The y field of built points -/

theorem dimName_ne_y (dim : Dim) : dimName dim ≠ "y" := by
  cases dim <;> decide

theorem dimName_ne_x (dim : Dim) : dimName dim ≠ "x" := by
  cases dim <;> decide

theorem getV_addDimField_y (r acc : Obj) (dim : Dim) :
    getV (addDimField r acc dim) "y" = getV acc "y" := by
  unfold addDimField
  cases hf : (keysOf r).find? (fun k =>
      (strToLower k) == strToLower (dimName dim) ||
        (dim == Dim.store && ((strToLower k) == "store_name" || (strToLower k) == "store_id"))) with
  | none => rfl
  | some dimKey =>
      cases hg : getV r dimKey with
      | none => simp [hg]
      | some v =>
          simp only [hg]
          rw [setV_eq_amSet, getV_eq_amGet, amGet_amSet_ne _ _ _ _ (dimName_ne_y dim).symm]
          rfl

theorem getV_y_foldl_addDim (dims : List Dim) (r : Obj) (acc : Obj) :
    getV (dims.foldl (addDimField r) acc) "y" = getV acc "y" := by
  induction dims generalizing acc with
  | nil => rfl
  | cons dim dims ih => rw [List.foldl_cons, ih, getV_addDimField_y]

theorem mapRow_y (viz : VizSpec) (xKey : Option String) (yk : String) (r : Obj) :
    getV (mapRow viz xKey yk r) "y" = some (.num (coerceY (getV r yk))) := by
  unfold mapRow
  rw [getV_y_foldl_addDim]
  rfl

theorem keepPoint_mapRow (viz : VizSpec) (xKey : Option String) (yk : String) (r : Obj) :
    keepPoint (mapRow viz xKey yk r) = true ↔ coerceY (getV r yk) ≠ JSNum.nan := by
  unfold keepPoint
  rw [mapRow_y]
  simp [jsToNumber]

/-! ### Finiteness of built y values -/

/-- The built point has a finite numeric `y` field. -/
def finitePointY (d : Obj) : Prop :=
  ∃ f, getV d "y" = some (Scalar.num (.finite f))

/-- Every non-`x` field of a pivot entry is a number other than
`NaN` (finite, or a signed infinity produced by overflow). -/
def pivotEntryNN (o : Obj) : Prop :=
  ∀ p ∈ o, p.1 ≠ "x" → ∃ n, p.2 = Scalar.num n ∧ n ≠ JSNum.nan

/-- The built point has a numeric `y` field that is not `NaN`. -/
def pointYNN (d : Obj) : Prop :=
  ∃ n, getV d "y" = some (Scalar.num n) ∧ n ≠ JSNum.nan

theorem pointYNN_of_finite {d : Obj} (h : finitePointY d) : pointYNN d := by
  rcases h with ⟨f, hf⟩
  exact ⟨.finite f, hf, by simp⟩

theorem scalarOr0_num_finite (f : Dec) :
    ∃ g, scalarOr0 (some (.num (.finite f))) = Scalar.num (.finite g) := by
  by_cases h : jsTruthyS (.num (.finite f)) = true
  · exact ⟨f, by simp [scalarOr0, h]⟩
  · exact ⟨Dec.ofInt 0, by simp [scalarOr0, h, JSNum.int]⟩

theorem jsAdd_num (a b : JSNum) :
    jsAdd (.num a) (.num b) = Scalar.num (jsNumAdd a b) := rfl

theorem jsNumAdd_ne_nan {a b : JSNum} (ha : a ≠ JSNum.nan) (hb : ∃ f, b = JSNum.finite f) :
    jsNumAdd a b ≠ JSNum.nan := by
  rcases hb with ⟨f, rfl⟩
  cases a with
  | finite g =>
      simp only [jsNumAdd]
      by_cases ho : (g.add f).overflows = true
      · rw [if_pos ho]
        by_cases hs : (g.add f).m < 0
        · rw [if_pos hs]; simp
        · rw [if_neg hs]; simp
      · rw [if_neg ho]; simp
  | nan => exact absurd rfl ha
  | inf => simp [jsNumAdd]
  | ninf => simp [jsNumAdd]

theorem scalarOr0_num_nonnan {n : JSNum} (h : n ≠ JSNum.nan) :
    ∃ m, scalarOr0 (some (.num n)) = Scalar.num m ∧ m ≠ JSNum.nan := by
  by_cases ht : jsTruthyS (.num n) = true
  · exact ⟨n, by simp [scalarOr0, ht], h⟩
  · exact ⟨JSNum.int 0, by simp [scalarOr0, ht], by simp [JSNum.int]⟩

theorem sum_or0_nonnan {u v : Option Scalar}
    (hu : (∃ n, u = some (Scalar.num n) ∧ n ≠ JSNum.nan) ∨ u = none)
    (hv : ∃ f, v = some (Scalar.num (.finite f))) :
    ∃ n, jsAdd (scalarOr0 u) (scalarOr0 v) = Scalar.num n ∧ n ≠ JSNum.nan := by
  rcases hv with ⟨g, hg⟩
  rcases scalarOr0_num_finite g with ⟨g1, hg1⟩
  rcases hu with ⟨m, hm, hmn⟩ | hnone
  · rcases scalarOr0_num_nonnan hmn with ⟨m1, hm1, hm1n⟩
    rw [hm, hg, hm1, hg1, jsAdd_num]
    exact ⟨jsNumAdd m1 (.finite g1), rfl, jsNumAdd_ne_nan hm1n ⟨g1, rfl⟩⟩
  · rw [hnone, hg, hg1]
    have h0 : scalarOr0 none = Scalar.num (JSNum.int 0) := rfl
    rw [h0, jsAdd_num]
    exact ⟨jsNumAdd (JSNum.int 0) (.finite g1), rfl,
      jsNumAdd_ne_nan (by simp [JSNum.int]) ⟨g1, rfl⟩⟩

theorem pointYNN_setV_x (d : Obj) (v : Scalar) (h : pointYNN d) :
    pointYNN (setV d "x" v) := by
  rcases h with ⟨n, hf, hn⟩
  refine ⟨n, ?_, hn⟩
  rw [setV_eq_amSet, getV_eq_amGet,
    amGet_amSet_ne _ _ _ _ (by decide : ("y" : String) ≠ "x")]
  exact hf

theorem groupNoXStep_inv (viz : VizSpec) (acc : List (String × Obj)) (d : Obj)
    (hacc : ∀ kv ∈ acc, pointYNN kv.2) (hd : finitePointY d) :
    ∀ kv ∈ groupNoXStep viz acc d, pointYNN kv.2 := by
  intro kv hkv
  unfold groupNoXStep at hkv
  cases hg : amGet acc (groupKeyOf viz d) with
  | some existing =>
      simp only [hg] at hkv
      rcases mem_amSet hkv with heq | hmem
      · subst heq
        have hex : pointYNN existing := hacc (groupKeyOf viz d, existing) (amGet_mem hg)
        rcases hex with ⟨m, hm, hmn⟩
        rcases hd with ⟨g, hgf⟩
        have hsum := sum_or0_nonnan (u := getV existing "y") (v := getV d "y")
          (Or.inl ⟨m, hm, hmn⟩) ⟨g, hgf⟩
        rcases hsum with ⟨s, hs, hsn⟩
        refine ⟨s, ?_, hsn⟩
        rw [setV_eq_amSet, getV_eq_amGet, amGet_amSet_self, hs]
      · exact hacc kv hmem
  | none =>
      simp only [hg] at hkv
      rcases List.mem_append.mp hkv with hmem | hnew
      · exact hacc kv hmem
      · have hkveq := List.mem_singleton.mp hnew
        rw [hkveq]
        exact pointYNN_setV_x d _ (pointYNN_of_finite hd)

theorem foldl_groupNoXStep_inv (viz : VizSpec) (l : List Obj) (acc : List (String × Obj))
    (hacc : ∀ kv ∈ acc, pointYNN kv.2) (hl : ∀ d ∈ l, finitePointY d) :
    ∀ kv ∈ l.foldl (groupNoXStep viz) acc, pointYNN kv.2 := by
  induction l generalizing acc with
  | nil => exact hacc
  | cons d l ih =>
      rw [List.foldl_cons]
      exact ih _ (groupNoXStep_inv viz acc d hacc (hl d (by simp)))
        (fun e he => hl e (List.mem_cons_of_mem _ he))

theorem groupNoX_nonnan (viz : VizSpec) (mapped : List Obj)
    (h : ∀ d ∈ mapped, finitePointY d) :
    ∀ o ∈ groupNoX viz mapped, pointYNN o := by
  intro o ho
  unfold groupNoX at ho
  rcases List.mem_map.mp ho with ⟨kv, hkv, rfl⟩
  exact foldl_groupNoXStep_inv viz mapped [] (by simp) h kv hkv

theorem pivotAddDim_inv (d e : Obj) (dim : Dim)
    (hd : finitePointY d) (he : pivotEntryNN e) :
    pivotEntryNN (pivotAddDim d e dim) := by
  unfold pivotAddDim
  cases hg : getV d (dimName dim) with
  | none => exact he
  | some v =>
      intro p hp hpx
      simp only at hp
      rw [setV_eq_amSet] at hp
      rcases mem_amSet hp with heq | hmem
      · subst heq
        simp only
        by_cases hxv : jsString v = "x"
        · exact absurd hxv hpx
        · have harg : (∃ n, getV e (jsString v) = some (Scalar.num n) ∧ n ≠ JSNum.nan) ∨
              getV e (jsString v) = none := by
            cases hge : getV e (jsString v) with
            | none => exact Or.inr rfl
            | some w =>
                left
                have hgem : (jsString v, w) ∈ e := amGet_mem (m := e) hge
                have hw := he (jsString v, w) hgem hxv
                rcases hw with ⟨n, hn, hnn⟩
                have hn2 : w = Scalar.num n := hn
                exact ⟨n, by rw [hn2], hnn⟩
          rcases hd with ⟨g, hgy⟩
          rcases sum_or0_nonnan harg ⟨g, hgy⟩ with ⟨s, hs, hsn⟩
          exact ⟨s, hs, hsn⟩
      · exact he p hmem hpx

theorem foldl_pivotAddDim_inv (dims : List Dim) (d e : Obj)
    (hd : finitePointY d) (he : pivotEntryNN e) :
    pivotEntryNN (dims.foldl (pivotAddDim d) e) := by
  induction dims generalizing e with
  | nil => exact he
  | cons dim dims ih =>
      rw [List.foldl_cons]
      exact ih _ (pivotAddDim_inv d e dim hd he)

theorem pivotStep_inv (viz : VizSpec) (acc : List (String × Obj)) (d : Obj)
    (hacc : ∀ kv ∈ acc, pivotEntryNN kv.2) (hd : finitePointY d) :
    ∀ kv ∈ pivotStep viz acc d, pivotEntryNN kv.2 := by
  intro kv hkv
  unfold pivotStep at hkv
  set xStr := jsStringU (getV d "x") with hxs
  set acc1 := if (amGet acc xStr).isSome then acc
    else acc ++ [(xStr, [("x", Scalar.str xStr)])] with hacc1
  have hacc1ok : ∀ kv ∈ acc1, pivotEntryNN kv.2 := by
    intro q hq
    rw [hacc1] at hq
    by_cases hs : (amGet acc xStr).isSome
    · rw [if_pos hs] at hq; exact hacc q hq
    · rw [if_neg hs] at hq
      rcases List.mem_append.mp hq with hmem | hnew
      · exact hacc q hmem
      · have : q = (xStr, [("x", Scalar.str xStr)]) := by simpa using hnew
        rw [this]
        intro p hp hpx
        have : p = ("x", Scalar.str xStr) := by simpa using hp
        rw [this] at hpx
        exact absurd rfl hpx
  have hentry : pivotEntryNN ((amGet acc1 xStr).getD []) := by
    cases hge : amGet acc1 xStr with
    | none => intro p hp hpx; simp at hp
    | some e => exact hacc1ok (xStr, e) (amGet_mem hge)
  rcases mem_amSet hkv with heq | hmem
  · subst heq
    exact foldl_pivotAddDim_inv viz.groupBy d _ hd hentry
  · exact hacc1ok kv hmem

theorem pivotX_entryNN (viz : VizSpec) (mapped : List Obj)
    (h : ∀ d ∈ mapped, finitePointY d) :
    ∀ o ∈ pivotX viz mapped, pivotEntryNN o := by
  have key : ∀ (l : List Obj) (acc : List (String × Obj)),
      (∀ kv ∈ acc, pivotEntryNN kv.2) → (∀ d ∈ l, finitePointY d) →
      ∀ kv ∈ l.foldl (pivotStep viz) acc, pivotEntryNN kv.2 := by
    intro l
    induction l with
    | nil => intro acc hacc _; exact hacc
    | cons d l ih =>
        intro acc hacc hl
        rw [List.foldl_cons]
        exact ih _ (pivotStep_inv viz acc d hacc (hl d (by simp)))
          (fun e he => hl e (by simp [he]))
  intro o ho
  unfold pivotX at ho
  rcases List.mem_map.mp ho with ⟨kv, hkv, rfl⟩
  exact key mapped [] (by simp) h kv hkv

/-! ### The sort is a permutation -/

theorem insertCmp_perm {α : Type} (c : α → α → ℤ) (x : α) (l : List α) :
    (insertCmp c x l).Perm (x :: l) := by
  induction l with
  | nil => exact List.Perm.refl _
  | cons y ys ih =>
      unfold insertCmp
      by_cases h : c x y < 0
      · rw [if_pos h]
      · rw [if_neg h]
        exact (ih.cons y).trans (List.Perm.swap x y ys)

theorem jsSort_perm {α : Type} (c : α → α → ℤ) (l : List α) :
    (jsSort c l).Perm l := by
  have key : ∀ (l acc : List α),
      (l.foldl (fun a x => insertCmp c x a) acc).Perm (acc ++ l) := by
    intro l
    induction l with
    | nil => intro acc; simp
    | cons x xs ih =>
        intro acc
        rw [List.foldl_cons]
        refine (ih (insertCmp c x acc)).trans ?_
        refine ((insertCmp_perm c x acc).append_right xs).trans ?_
        exact List.perm_middle.symm
  simpa [jsSort] using key l []

theorem mem_jsSort {α : Type} {c : α → α → ℤ} {l : List α} {x : α} :
    x ∈ jsSort c l ↔ x ∈ l :=
  (jsSort_perm c l).mem_iff

theorem chartData_eq (viz : VizSpec) (rows : List Obj) (yk : String)
    (hyk : resolveYKey viz rows = some yk) :
    chartData viz rows =
      if rows.isEmpty || yk == "" then []
      else
        if !viz.groupBy.isEmpty then
          if (pickXKey viz rows).isNone || viz.x.isNone then
            groupNoX viz ((rows.map (mapRow viz (pickXKey viz rows) yk)).filter keepPoint)
          else
            if (pickXKey viz rows).isSome && !viz.groupBy.isEmpty then
              sortPivot viz (pickXKey viz rows)
                (pivotX viz ((rows.map (mapRow viz (pickXKey viz rows) yk)).filter keepPoint))
            else (rows.map (mapRow viz (pickXKey viz rows) yk)).filter keepPoint
        else (rows.map (mapRow viz (pickXKey viz rows) yk)).filter keepPoint := by
  unfold chartData
  rw [hyk]

theorem mem_sortPivot {viz : VizSpec} {xKey : Option String} {l : List Obj} {o : Obj} :
    o ∈ sortPivot viz xKey l ↔ o ∈ l := by
  unfold sortPivot
  split <;> exact mem_jsSort

/-- Two pivot rows whose y value is `1e308`: their exact sum reaches
the IEEE overflow threshold, so double addition yields `Infinity`. -/
def rowsOverflowEx : List Obj :=
  [[("month", .str "2024-01"), ("region", .str "North"),
    ("sales", .num (.finite ⟨((10 ^ 308 : ℕ) : ℤ), 0⟩))],
   [("month", .str "2024-01"), ("region", .str "North"),
    ("sales", .num (.finite ⟨((10 ^ 308 : ℕ) : ℤ), 0⟩))]]

/-- C5 (amended): when every row's coerced y value is non-infinite,
every y value the Series Builder emits — the `y` field of flat and
aggregated points, and every per-series column of pivoted rows — is a
number other than `NaN`: the filter removes `NaN` points and summing a
non-`NaN` accumulator with finite values never produces `NaN`.  The
emitted values need not be finite: IEEE double addition saturates, so
two finite `1e308` values in one pivot bucket sum to `Infinity`, as the
second conjunct shows on the saturating addition.  (The unamended
claim already fails because `Infinity` inputs pass the `isNaN`-only
filter; see the counterexample.) -/
theorem no_nan_y_of_noninf_inputs :
    (∀ (viz : VizSpec) (rows : List Obj) (yk : String),
        resolveYKey viz rows = some yk →
        (∀ r ∈ rows, coerceY (getV r yk) ≠ JSNum.inf ∧ coerceY (getV r yk) ≠ JSNum.ninf) →
        (claimYValues viz rows).all isNumNonNaN = true) ∧
      claimYValues vizPivotEx rowsOverflowEx = [Scalar.num JSNum.inf] := by
  constructor
  · intro viz rows yk hyk h
    have hCD := chartData_eq viz rows yk hyk
    by_cases hemp : (rows.isEmpty || (yk == "")) = true
    · rw [hemp] at hCD
      simp only [if_pos] at hCD
      simp [claimYValues, hCD]
    · have hemp' : (rows.isEmpty || (yk == "")) = false := by
        simpa using hemp
      rw [hemp'] at hCD
      simp only [Bool.false_eq_true, if_false] at hCD
      have hfin : ∀ d ∈ (rows.map (mapRow viz (pickXKey viz rows) yk)).filter keepPoint,
          finitePointY d := by
        intro d hdm
        rcases List.mem_filter.mp hdm with ⟨hmm, hkeep⟩
        rcases List.mem_map.mp hmm with ⟨r, hr, rfl⟩
        have hnan : coerceY (getV r yk) ≠ JSNum.nan :=
          (keepPoint_mapRow viz _ yk r).mp hkeep
        have hinf := h r hr
        cases hc : coerceY (getV r yk) with
        | finite f => exact ⟨f, by rw [mapRow_y, hc]⟩
        | nan => exact absurd hc hnan
        | inf => exact absurd hc hinf.1
        | ninf => exact absurd hc hinf.2
      have hflatcase : ∀ (data : List Obj), (∀ o ∈ data, pointYNN o) →
          (data.filterMap (fun o => getV o "y")).all isNumNonNaN = true := by
        intro data hdata
        rw [List.all_eq_true]
        intro s hs
        rcases List.mem_filterMap.mp hs with ⟨o, ho, hgo⟩
        rcases hdata o ho with ⟨n, hf, hn⟩
        rw [hf] at hgo
        have hseq : s = Scalar.num n := by
          injection hgo with hgo
          exact hgo.symm
        rw [hseq]
        simp only [isNumNonNaN, bne_iff_ne, ne_eq]
        simpa using hn
      cases hgb : viz.groupBy with
      | nil =>
          have hCD' : chartData viz rows =
              (rows.map (mapRow viz (pickXKey viz rows) yk)).filter keepPoint := by
            rw [hCD, hgb]; simp
          have hCV : claimYValues viz rows =
              (chartData viz rows).filterMap (fun o => getV o "y") := by
            unfold claimYValues
            rw [hgb]
            simp
          rw [hCV, hCD']
          exact hflatcase _ (fun o ho => pointYNN_of_finite (hfin o ho))
      | cons g0 gs =>
          cases hxk : pickXKey viz rows with
          | none =>
              have hCD' : chartData viz rows =
                  groupNoX viz ((rows.map (mapRow viz none yk)).filter keepPoint) := by
                rw [hCD]; simp [hgb, hxk]
              have hCV : claimYValues viz rows =
                  (chartData viz rows).filterMap (fun o => getV o "y") := by
                unfold claimYValues
                rw [hxk]
                simp
              rw [hCV, hCD']
              refine hflatcase _ ?_
              intro o ho
              refine groupNoX_nonnan viz _ ?_ o ho
              rw [← hxk]
              exact hfin
          | some xk =>
              cases hvx : viz.x with
              | none =>
                  have hCD' : chartData viz rows =
                      groupNoX viz ((rows.map (mapRow viz (some xk) yk)).filter keepPoint) := by
                    rw [hCD]; simp [hgb, hxk, hvx]
                  have hCV : claimYValues viz rows =
                      (chartData viz rows).filterMap (fun o => getV o "y") := by
                    unfold claimYValues
                    rw [hvx]
                    simp
                  rw [hCV, hCD']
                  refine hflatcase _ ?_
                  intro o ho
                  refine groupNoX_nonnan viz _ ?_ o ho
                  rw [← hxk]
                  exact hfin
              | some vx =>
                  have hCD' : chartData viz rows =
                      sortPivot viz (some xk)
                        (pivotX viz ((rows.map (mapRow viz (some xk) yk)).filter keepPoint)) := by
                    rw [hCD]; simp [hgb, hxk, hvx]
                  have hCV : claimYValues viz rows =
                      (chartData viz rows).flatMap
                        (fun o => (o.filter (fun kv => kv.1 != "x")).map (fun kv => kv.2)) := by
                    unfold claimYValues
                    simp [hgb, hxk, hvx]
                  rw [hCV, hCD', List.all_eq_true]
                  intro s hs
                  rcases List.mem_flatMap.mp hs with ⟨o, ho, hso⟩
                  have hopv : o ∈ pivotX viz
                      ((rows.map (mapRow viz (some xk) yk)).filter keepPoint) :=
                    mem_sortPivot.mp ho
                  have hok : pivotEntryNN o := by
                    refine pivotX_entryNN viz _ ?_ o hopv
                    rw [← hxk]
                    exact hfin
                  rcases List.mem_map.mp hso with ⟨p, hp, rfl⟩
                  rcases List.mem_filter.mp hp with ⟨hpo, hpx⟩
                  have hpxne : p.1 ≠ "x" := by
                    simpa using hpx
                  rcases hok p hpo hpxne with ⟨n, hf, hn⟩
                  rw [hf]
                  simp only [isNumNonNaN, bne_iff_ne, ne_eq]
                  simpa using hn
  · decide

/-- C5 witness: the amended no-`NaN` statement applied to the pivot
example, whose y values are all finite. -/
theorem no_nan_y_witness :
    (claimYValues vizPivotEx rowsPivotEx).all isNumNonNaN = true :=
  no_nan_y_of_noninf_inputs.1 vizPivotEx rowsPivotEx "sales" (by decide) (by decide)

/-- C6 (amended): the inline and full-screen consumers do compute the
same resolution and the same series output for every (spec, rows) pair
— the two code sites duplicate one transform, differing only in an
always-true inner test — while their ranked summaries diverge (see the
counterexample). -/
theorem chart_and_fullscreen_series_agree (viz : VizSpec) (rows : List Obj) :
    fullscreenData viz rows = chartData viz rows := by
  have hmap : mapRowFS = mapRow := rfl
  have hkeep : keepPointFS = keepPoint := rfl
  have hgn : groupNoXFS = groupNoX := rfl
  have hpv : pivotXFS = pivotX := rfl
  have hsp : sortPivotFS = sortPivot := rfl
  unfold fullscreenData chartData
  rw [hmap, hkeep, hgn, hpv, hsp]
  cases hres : resolveYKey viz rows with
  | none => rfl
  | some yk =>
      by_cases hemp : (rows.isEmpty || (yk == "")) = true
      · simp [hemp]
      · have hemp' : (rows.isEmpty || (yk == "")) = false := by simpa using hemp
        simp only [hemp', Bool.false_eq_true, if_false]
        cases hgb : viz.groupBy with
        | nil => simp
        | cons g0 gs =>
            cases hxk : pickXKey viz rows with
            | none => simp
            | some xk =>
                cases hvx : viz.x with
                | none => simp
                | some vx => simp

/-- C7: whenever the y hint is not literally a key of the first row but
some column fuzzy-matches it (case-insensitive containment either way,
or equal underscore-stripped lower-cased forms), the resolver returns a
fuzzy-matching column; in particular the hint `net_sales` resolves to
the concrete column `total_net_sales`. -/
theorem fuzzy_y_resolution :
    (∀ (viz : VizSpec) (r0 : Obj) (rs : List Obj) (yk : String),
      viz.y.head? = some yk → getV r0 yk = none →
      (keysOf r0).any (fun k => fuzzyY yk k) = true →
      (resolveYKey viz (r0 :: rs)).any (fun k => fuzzyY yk k) = true) ∧
      resolveYKey vizNetEx [rowNetEx] = some "total_net_sales" := by
  constructor
  · intro viz r0 rs yk h1 h2 h3
    unfold resolveYKey
    rw [h1]
    by_cases hyk0 : (yk == "") = true
    · have hy : yk = "" := by simpa using hyk0
      subst hy
      simp only [hyk0, if_pos]
      decide
    · have hyk0' : (yk == "") = false := by simpa using hyk0
      have h2' : (getV r0 yk).isSome = false := by rw [h2]; rfl
      simp only [hyk0', h2', Bool.false_eq_true, if_false]
      cases hf : (keysOf r0).find? (fun k => fuzzyY yk k) with
      | none =>
          exfalso
          rcases List.any_eq_true.mp h3 with ⟨k, hk, hp⟩
          exact (List.find?_eq_none.mp hf k hk) hp
      | some k =>
          have hp := List.find?_some hf
          simpa using hp
  · decide

/-- C7 witness: the general resolution statement applied to the
`net_sales` / `total_net_sales` sample. -/
theorem fuzzy_y_resolution_witness :
    (resolveYKey vizNetEx [rowNetEx]).any (fun k => fuzzyY "net_sales" k) = true :=
  fuzzy_y_resolution.1 vizNetEx rowNetEx [] "net_sales" (by decide) (by decide) (by decide)

/-- C8 (amended): the Series Builder's result is empty — and the
caller's diagnostic then lists the first row's column names — exactly
in the degenerate cases: no y hint at all, an empty row set, or every
point eliminated because its raw y is the `NaN` number.  A y hint that
fails to resolve instead keeps the hint and emits points with y 0 (see
the counterexample). -/
theorem empty_result_conditions (viz : VizSpec) (rows : List Obj)
    (h : viz.y.head? = none ∨ rows = [] ∨
      (∀ r ∈ rows, ∀ yk, resolveYKey viz rows = some yk → coerceY (getV r yk) = JSNum.nan)) :
    chartData viz rows = [] ∧
      (∀ r0 rs, rows = r0 :: rs →
        availableKeysText rows = String.intercalate ", " (keysOf r0)) := by
  constructor
  · rcases h with h | h | h
    · have hres : resolveYKey viz rows = none := by
        cases rows <;> simp [resolveYKey, h]
      unfold chartData
      rw [hres]
    · subst h
      unfold chartData
      cases hres : resolveYKey viz [] with
      | none => rfl
      | some yk => simp
    · cases hres : resolveYKey viz rows with
      | none => unfold chartData; rw [hres]
      | some yk =>
          have hCD := chartData_eq viz rows yk hres
          by_cases hemp : (rows.isEmpty || (yk == "")) = true
          · rw [hemp] at hCD
            simp only [if_pos] at hCD
            exact hCD
          · have hemp' : (rows.isEmpty || (yk == "")) = false := by simpa using hemp
            rw [hemp'] at hCD
            simp only [Bool.false_eq_true, if_false] at hCD
            have hmapped :
                (rows.map (mapRow viz (pickXKey viz rows) yk)).filter keepPoint = [] := by
              rw [List.filter_eq_nil_iff]
              intro d hd
              rcases List.mem_map.mp hd with ⟨r, hr, rfl⟩
              intro hkp
              exact (keepPoint_mapRow viz _ yk r).mp hkp (h r hr yk hres)
            rw [hCD, hmapped]
            have hsp : ∀ xK, sortPivot viz xK (pivotX viz ([] : List Obj)) = [] := by
              intro xK
              unfold sortPivot pivotX jsSort
              simp
            have hgn : groupNoX viz ([] : List Obj) = [] := rfl
            split_ifs <;> simp [hsp, hgn]
  · intro r0 rs hr
    subst hr
    rfl

/-- C8 witness: a spec with no y hint yields the empty result, and the
diagnostic for the rows lists the first row's keys. -/
theorem empty_result_conditions_witness :
    chartData vizNoYEx rowsCatEx = [] ∧ availableKeysText rowsCatEx = "cat, sales" := by
  constructor
  · exact (empty_result_conditions vizNoYEx rowsCatEx (Or.inl (by decide))).1
  · decide

/-- C9 (amended): `new Date` never throws, so the catch branch is dead:
whenever either side's `x` fails to parse as a date the comparator
value is `NaN`, which the sort treats as `0`, so such pairs compare as
equal and keep their relative input order under the stable sort; the
sort itself always succeeds, returning a permutation of its input. -/
theorem date_sort_nan_pairs_equal :
    (∀ a b : Obj, jsDateParse (xStrOf a) = none ∨ jsDateParse (xStrOf b) = none →
      dateCmp a b = 0) ∧
      ∀ (l : List Obj), (jsSort dateCmp l).Perm l := by
  constructor
  · intro a b hab
    unfold dateCmp
    rcases hab with h | h
    · rw [h]
      cases jsDateParse (xStrOf b) <;> rfl
    · rw [h]
      cases jsDateParse (xStrOf a) <;> rfl
  · intro l
    exact jsSort_perm dateCmp l

/-- C9 witness: the equal-comparison fact applied to an unparseable
pivot row. -/
theorem date_sort_nan_pairs_equal_witness :
    dateCmp [("x", Scalar.str "banana")] [("x", Scalar.str "2024-01")] = 0 :=
  date_sort_nan_pairs_equal.1 _ _ (Or.inl (by decide))

/-- C10: table mode renders `rows.slice(0, 50)`: at most 50 rows, each
rendered row `i < 50` is exactly the stringified cells of input row `i`
over the first row's columns (original order preserved), and every row
at index 50 or beyond is omitted. -/
theorem table_rows_truncated_to_50 (rows : List Obj) :
    (renderTableRows rows).length ≤ 50 ∧
      (∀ i r, rows[i]? = some r → i < 50 →
        (renderTableRows rows)[i]? =
          some ((tableCols rows).map (fun c => jsStringU (getV r c)))) ∧
      (∀ i, 50 ≤ i → (renderTableRows rows)[i]? = none) := by
  refine ⟨?_, ?_, ?_⟩
  · unfold renderTableRows
    rw [List.length_map, List.length_take]
    omega
  · intro i r hir hi
    unfold renderTableRows
    rw [List.getElem?_map, List.getElem?_take, if_pos hi, hir]
    rfl
  · intro i hi
    unfold renderTableRows
    rw [List.getElem?_map, List.getElem?_take, if_neg (by omega)]
    rfl

/-- C10 witness: the truncation statement applied to a concrete table. -/
theorem table_rows_truncated_witness :
    (renderTableRows rowsTableEx).length ≤ 50 ∧
      (renderTableRows rowsTableEx)[0]? =
        some ((tableCols rowsTableEx).map
          (fun c => jsStringU (getV [("a", Scalar.str "u"), ("b", Scalar.num (JSNum.int 1))] c))) ∧
      (renderTableRows rowsTableEx)[50]? = none :=
  ⟨(table_rows_truncated_to_50 rowsTableEx).1,
   (table_rows_truncated_to_50 rowsTableEx).2.1 0
     [("a", Scalar.str "u"), ("b", Scalar.num (JSNum.int 1))] (by decide) (by decide),
   (table_rows_truncated_to_50 rowsTableEx).2.2 50 (by decide)⟩
